import Mathlib

/-!
A shallow embedding of `bar.py` (the `Figure`/`Bar` matplotlib wrapper of the
yplot repository) and proofs about its bar-layout, sorting and re-render
behaviour.

Modelling conventions:
* Python floats are modelled as exact rationals (`ℚ`); the layout formulas are
  closed-form field arithmetic, so no rounding is involved in the claims.
* `OrderedDict`s are modelled as association lists in insertion order; Python
  dictionaries have unique keys, which appears as `Nodup` hypotheses where a
  proof needs it.
* Raising an exception (IndexError, KeyError, ValueError, ZeroDivisionError) is
  modelled as `Option.none`; Python list comprehensions become `omapM`, which
  fails iff some element fails.
* Calls into matplotlib (`axes.bar`, `axes.text`, `axes.set_xticks`,
  `axes.hlines`, `axes.legend`) are modelled by recording their arguments in a
  `RenderOut` structure; `axes.get_ylim()` is an input parameter `ylim`.
* `np.argsort` uses an unspecified (unstable) tie order; it is modelled by a
  deterministic insertion sort on indices.  All claims proved about it concern
  only the order of the sort keys, which is independent of the tie order.
-/

/-- Left-to-right effectful map over `Option`: the Python list comprehension
`[f x for x in l]` where evaluating `f` may raise. -/
def omapM {α β : Type} (f : α → Option β) : List α → Option (List β)
  | [] => some []
  | a :: l => do
      let b ← f a
      let bs ← omapM f l
      pure (b :: bs)

/-- Python `list.index` on the stored label list: index of the first entry
equal to `some label`, `none` (ValueError) when absent. -/
def pyIndex (labels : List (Option String)) (label : String) : Option ℕ :=
  match labels with
  | [] => none
  | a :: rest => if a = some label then some 0 else (pyIndex rest label).map (· + 1)

/-- Dictionary read `d[x]` on an association list: value of the first pair
whose key is `x`, `none` (KeyError) when absent. -/
def dictGet? (d : List (String × List ℚ)) (x : String) : Option (List ℚ) :=
  match d with
  | [] => none
  | p :: rest => if p.1 = x then some p.2 else dictGet? rest x

/-- `bar_data.setdefault(x, []); bar_data[x].append(y)` on an association
list: append `y` to the entry of `x`, creating it at the end when absent. -/
def dictAppend : List (String × List ℚ) → String → ℚ → List (String × List ℚ)
  | [], x, y => [(x, [y])]
  | p :: rest, x, y =>
      if p.1 = x then (p.1, p.2 ++ [y]) :: rest else p :: dictAppend rest x y

/-- `d[name] = v` on an association list: overwrite the first entry with key
`name`, or append a new entry at the end. -/
def dictSet {α : Type} : List (String × α) → String → α → List (String × α)
  | [], name, v => [(name, v)]
  | p :: rest, name, v =>
      if p.1 = name then (name, v) :: rest else p :: dictSet rest name v

/-- The state of a `Bar` figure: every attribute set by `Figure.__init__` and
`Bar.__init__` that the public operations read or write.  The `**kwargs`
settings dictionaries are opaque string-to-string association lists; stored
hlines keep their `y` value (span and kwargs are passed through unchanged and
out of scope). -/
structure BarState where
  bar_data : List (String × List ℚ)
  labels : List (Option String)
  colors : List (Option String)
  hatches : List (Option String)
  groups : Option (List (String × List String))
  bar_spacing : ℚ
  group_spacing : ℕ
  xtick_settings : List (String × String)
  legend_settings : List (String × String)
  bar_settings : List (String × String)
  hlines_list : List ℚ
  group_label_loc : Option ℚ
  deriving DecidableEq, Repr

/-- The state `Bar(...)` starts in (no custom axes/kwargs). -/
def initBar (group_label_loc : Option ℚ := none) : BarState where
  bar_data := []
  labels := []
  colors := []
  hatches := []
  groups := none
  bar_spacing := 1/4
  group_spacing := 1
  xtick_settings := []
  legend_settings := []
  bar_settings := [("align", "edge"), ("edgecolor", "#030203"), ("linewidth", "0.5")]
  hlines_list := []
  group_label_loc := group_label_loc

/-- One `axes.bar(loc, heights, width=…, label=…, color=…, hatch=…)` call. -/
structure BarCall where
  loc : List ℚ
  heights : List ℚ
  width : ℚ
  label : Option String
  color : Option String
  hatch : Option String
  deriving DecidableEq, Repr

/-- Everything `render` draws on the (cleared) axes: the bar calls, the xtick
locations/labels/settings, the group-label texts `(x, y, name)`, the hlines
redrawn by `_render_post` and the legend settings. -/
structure RenderOut where
  bars : List BarCall
  xtick_locs : List ℕ
  xtick_labels : List String
  xtick_settings : List (String × String)
  group_texts : List (ℚ × ℚ × String)
  hlines_drawn : List ℚ
  legend_settings : List (String × String)
  deriving DecidableEq, Repr

/-- The x positions of the bars of series `n`: Python
`[origin + i + n/nbars * (1 - bar_spacing) - .5 + bar_spacing/2 for i in range(len(data))]`. -/
def barLoc (origin : ℕ) (nbars dataLen : ℕ) (s : ℚ) (n : ℕ) : List ℚ :=
  (List.range dataLen).map fun (i : ℕ) =>
    (origin : ℚ) + (i : ℚ) + (n : ℚ) / (nbars : ℚ) * (1 - s) - 1/2 + s/2

/-- `Bar._render_single`: renders one (sub)group of data starting at `origin`.
Fails (`none`) when `data` is empty (IndexError on `list(data.values())[0]`),
when its first value list is empty (ZeroDivisionError on `1/nbars_per_label`),
when some value list is shorter than the first (IndexError on `x[n]`), or when
the label/color/hatch lists are shorter than the first value list
(IndexError on `self.labels[n]` etc.).

`mkBarCall` is the body of the `for n in range(nbars_per_label)` loop: the
single `axes.bar` call for series `n`. -/
def mkBarCall (data : List (String × List ℚ)) (labels colors hatches : List (Option String))
    (s : ℚ) (origin : ℕ) (use_labels : Bool) (nbars n : ℕ) : Option BarCall := do
  let heights ← omapM (fun p => p.2[n]?) data
  let lab ← cond use_labels labels[n]? (some none)
  let col ← colors[n]?
  let hat ← hatches[n]?
  pure { loc := barLoc origin nbars data.length s n,
         heights := heights,
         width := 1 / (nbars : ℚ) * (1 - s),
         label := lab, color := col, hatch := hat : BarCall }

def renderSingle (data : List (String × List ℚ)) (labels colors hatches : List (Option String))
    (s : ℚ) (origin : ℕ) (use_labels : Bool) : Option (List BarCall) := do
  let firstRow ← (data.map Prod.snd).head?
  let nbars := firstRow.length
  if nbars = 0 then none else
  omapM (mkBarCall data labels colors hatches s origin use_labels nbars) (List.range nbars)

/-- The dict comprehension `{x: bar_data[x] for x in groupxs}`: keys in order
of first occurrence (later duplicates only overwrite with the same value),
`none` (KeyError) when some `x` is not stored. -/
def groupData (bar_data : List (String × List ℚ)) (groupxs : List String) :
    Option (List (String × List ℚ)) :=
  omapM (fun x => (dictGet? bar_data x).map fun v => (x, v)) groupxs.eraseDups

/-- The y position used for the group-name texts: `group_label_loc` when one
was given to the constructor, else `ylim[0] - (ylim[1] - ylim[0]) * .2` from
the axes' current y-limits. -/
def groupLabelY (group_label_loc : Option ℚ) (ylim : ℚ × ℚ) : ℚ :=
  match group_label_loc with
  | none => ylim.1 - (ylim.2 - ylim.1) * (2/10)
  | some v => v

/-- The grouped branch of `Bar.render`: iterates over `groups`, returning the
accumulated bar calls, xtick locations, xtick labels and group texts. -/
def renderGroups (st : BarState) (ylim : ℚ × ℚ) :
    List (String × List String) → ℕ →
    Option (List BarCall × List ℕ × List String × List (ℚ × ℚ × String))
  | [], _ => some ([], [], [], [])
  | (gname, gxs) :: rest, origin => do
      let data ← groupData st.bar_data gxs
      let calls ← renderSingle data st.labels st.colors st.hatches st.bar_spacing origin
        (origin = 0)
      let locs := (List.range gxs.length).map (fun i => origin + i)
      let text := ((origin : ℚ) + (data.length : ℚ) / 2 - 1/2,
                   groupLabelY st.group_label_loc ylim, gname)
      let (calls', locs', labs', texts') ←
        renderGroups st ylim rest (origin + data.length + st.group_spacing)
      pure (calls ++ calls', locs ++ locs', gxs ++ labs', text :: texts')

/-- `Bar.render`: clear the axes, draw the bars (ungrouped, or group by group),
set the xticks, draw the group names, then re-draw the stored hlines and the
legend (`_render_post`).  `ylim` is what `axes.get_ylim()` returns. -/
def render (st : BarState) (ylim : ℚ × ℚ) : Option RenderOut :=
  match st.groups with
  | none => do
      let bars ← renderSingle st.bar_data st.labels st.colors st.hatches st.bar_spacing 0 true
      pure { bars := bars,
             xtick_locs := List.range st.bar_data.length,
             xtick_labels := st.bar_data.map Prod.fst,
             xtick_settings := st.xtick_settings,
             group_texts := [],
             hlines_drawn := st.hlines_list,
             legend_settings := st.legend_settings }
  | some gs => do
      let (bars, locs, labs, texts) ← renderGroups st ylim gs 0
      pure { bars := bars,
             xtick_locs := locs,
             xtick_labels := labs,
             xtick_settings := st.xtick_settings,
             group_texts := texts,
             hlines_drawn := st.hlines_list,
             legend_settings := st.legend_settings }

/-- The state mutation of `Bar.add_series` (before its final `self.render()`):
`zip` truncates to the shorter of `X`/`Y`; each pair is appended into
`bar_data`; label, color and hatch are appended. -/
def addSeries (st : BarState) (X : List String) (Y : List ℚ)
    (label color hatch : Option String) : BarState :=
  { st with
    bar_data := (X.zip Y).foldl (fun bd p => dictAppend bd p.1 p.2) st.bar_data
    labels := st.labels ++ [label]
    colors := st.colors ++ [color]
    hatches := st.hatches ++ [hatch] }

/-- The state mutation of `Bar.set_group`: create the groups dict on first use,
then `groups[name] = xs`. -/
def setGroup (st : BarState) (name : String) (xs : List String) : BarState :=
  { st with groups := some (dictSet (st.groups.getD []) name xs) }

/-- The index permutation `np.argsort(vals)` (deterministic tie order). -/
def argsort (vals : List ℚ) : List ℕ :=
  (List.range vals.length).insertionSort (fun i j => vals.getD i 0 ≤ vals.getD j 0)

/-- The state mutation of `Bar.sort` (before its final `self.render()`).
Ungrouped: argsort the selected series over `bar_data` and rebuild the dict in
that key order — note the `reverse` flag is NOT consulted on this branch.
Grouped: argsort each group's x-labels on the selected series (negated when
`reverse`) and store the permuted label lists.  Fails (`none`) when the label
was never added (ValueError), some value list is too short (IndexError), or a
group mentions an unknown x-label (KeyError).

`groupSortOne` is the body of the `for groupname, groupxs in self.groups.items()`
loop: argsort one group's x-labels on the selected series. -/
def groupSortOne (bar_data : List (String × List ℚ)) (label_idx : ℕ) (reverse : Bool)
    (g : String × List String) : Option (String × List String) := do
  let vals ← omapM (fun x => do
      let v ← dictGet? bar_data x
      let y ← v[label_idx]?
      pure (cond reverse (-y) y)) g.2
  let order := argsort vals
  pure (g.1, order.map (fun i => g.2.getD i ""))

def barSort (st : BarState) (label : String) (reverse : Bool) : Option BarState := do
  let label_idx ← pyIndex st.labels label
  match st.groups with
  | none => do
      let vals ← omapM (fun p => p.2[label_idx]?) st.bar_data
      let order := argsort vals
      let xs := order.map (fun i => (st.bar_data.map Prod.fst).getD i "")
      let bd ← omapM (fun x => (dictGet? st.bar_data x).map fun v => (x, v)) xs
      pure { st with bar_data := bd }
  | some gs => do
      let gs' ← omapM (groupSortOne st.bar_data label_idx reverse) gs
      pure { st with groups := some gs' }

/-- The public mutating operations of the `Figure`/`Bar` protocol. -/
inductive BarOp where
  | add_series (X : List String) (Y : List ℚ) (label color hatch : Option String)
  | hlines (y : ℚ)
  | set_xtick_settings (kvs : List (String × String))
  | set_legend_settings (kvs : List (String × String))
  | set_bar_settings (kvs : List (String × String))
  | set_group (name : String) (xs : List String)
  | sort (label : String) (reverse : Bool)
  deriving DecidableEq, Repr

/-- `dict.update(kwargs)` on an opaque settings association list. -/
def settingsUpdate (d : List (String × String)) : List (String × String) → List (String × String)
  | [] => d
  | kv :: rest => settingsUpdate (dictSet d kv.1 kv.2) rest

/-- One public operation: mutate the state, then `self.render()`; the figure
now shows exactly that render's output.  `none` when the mutation or the
re-render raises. -/
def stepOp (ylim : ℚ × ℚ) (st : BarState) : BarOp → Option (BarState × RenderOut)
  | .add_series X Y label color hatch => do
      let st' := addSeries st X Y label color hatch
      let out ← render st' ylim
      pure (st', out)
  | .hlines y => do
      let st' := { st with hlines_list := st.hlines_list ++ [y] }
      let out ← render st' ylim
      pure (st', out)
  | .set_xtick_settings kvs => do
      let st' := { st with xtick_settings := settingsUpdate st.xtick_settings kvs }
      let out ← render st' ylim
      pure (st', out)
  | .set_legend_settings kvs => do
      let st' := { st with legend_settings := settingsUpdate st.legend_settings kvs }
      let out ← render st' ylim
      pure (st', out)
  | .set_bar_settings kvs => do
      let st' := { st with bar_settings := settingsUpdate st.bar_settings kvs }
      let out ← render st' ylim
      pure (st', out)
  | .set_group name xs => do
      let st' := setGroup st name xs
      let out ← render st' ylim
      pure (st', out)
  | .sort label reverse => do
      let st' ← barSort st label reverse
      let out ← render st' ylim
      pure (st', out)

/-- Run a sequence of public operations from a state and the currently
displayed figure contents (`none` = nothing rendered yet). -/
def runOps (ylim : ℚ × ℚ) : BarState × Option RenderOut → List BarOp →
    Option (BarState × Option RenderOut)
  | p, [] => some p
  | (st, _), op :: rest => do
      let (st', out) ← stepOp ylim st op
      runOps ylim (st', some out) rest

/-! ### Helper lemmas about the embedding primitives -/

theorem omapM_cons {α β : Type} (f : α → Option β) (a : α) (l : List α) :
    omapM f (a :: l) = (f a).bind fun b => (omapM f l).bind fun bs => some (b :: bs) := rfl

theorem omapM_length {α β : Type} {f : α → Option β} :
    ∀ {l : List α} {l' : List β}, omapM f l = some l' → l'.length = l.length
  | [], _, h => by simp [omapM] at h; simp [← h]
  | a :: l, l', h => by
      rw [omapM_cons] at h
      rcases Option.bind_eq_some.mp h with ⟨b, _, h2⟩
      rcases Option.bind_eq_some.mp h2 with ⟨bs, hbs, h3⟩
      cases Option.some.inj h3
      simpa using omapM_length hbs

theorem omapM_getElem? {α β : Type} {f : α → Option β} :
    ∀ {l : List α} {l' : List β}, omapM f l = some l' → ∀ i : ℕ, l'[i]? = l[i]?.bind f
  | [], _, h, i => by simp [omapM] at h; subst h; simp
  | a :: l, l', h, i => by
      rw [omapM_cons] at h
      rcases Option.bind_eq_some.mp h with ⟨b, hb, h2⟩
      rcases Option.bind_eq_some.mp h2 with ⟨bs, hbs, h3⟩
      cases Option.some.inj h3
      match i with
      | 0 => simpa using hb.symm
      | i + 1 => simpa using omapM_getElem? hbs i

theorem omapM_eq_map {α β : Type} {f : α → Option β} {g : α → β} :
    ∀ {l : List α}, (∀ a ∈ l, f a = some (g a)) → omapM f l = some (l.map g)
  | [], _ => rfl
  | a :: l, h => by
      rw [omapM_cons, h a (by simp), omapM_eq_map (fun x hx => h x (by simp [hx]))]
      rfl

theorem omapM_isSome {α β : Type} {f : α → Option β} :
    ∀ {l : List α}, (∀ a ∈ l, (f a).isSome) → (omapM f l).isSome
  | [], _ => rfl
  | a :: l, h => by
      rw [omapM_cons]
      rcases Option.isSome_iff_exists.mp (h a (by simp)) with ⟨b, hb⟩
      rcases Option.isSome_iff_exists.mp
        (omapM_isSome (fun x (hx : x ∈ l) => h x (List.mem_cons_of_mem a hx))) with ⟨bs, hbs⟩
      simp [hb, hbs]

theorem map_getD_range {α : Type} (d : α) :
    ∀ l : List α, (List.range l.length).map (fun i => l.getD i d) = l
  | [] => rfl
  | a :: l => by
      rw [List.length_cons, List.range_succ_eq_map, List.map_cons, List.map_map]
      exact congrArg (a :: ·) (map_getD_range d l)

theorem pyIndex_getElem {label : String} :
    ∀ {labels : List (Option String)} {i : ℕ},
      pyIndex labels label = some i → labels[i]? = some (some label)
  | [], _, h => by simp [pyIndex] at h
  | a :: rest, i, h => by
      by_cases ha : a = some label
      · simp [pyIndex, ha] at h
        simp [← h, ha]
      · simp [pyIndex, ha] at h
        rcases h with ⟨j, hj, hji⟩
        subst hji
        simpa using pyIndex_getElem hj

theorem pyIndex_min {label : String} :
    ∀ {labels : List (Option String)} {j : ℕ},
      labels[j]? = some (some label) → ∃ i, pyIndex labels label = some i ∧ i ≤ j
  | [], j, h => by simp at h
  | a :: rest, j, h => by
      by_cases ha : a = some label
      · exact ⟨0, by simp [pyIndex, ha], Nat.zero_le j⟩
      · match j with
        | 0 => simp at h; exact absurd h ha
        | j + 1 =>
            rcases pyIndex_min (by simpa using h) with ⟨i, hi, hij⟩
            exact ⟨i + 1, by simp [pyIndex, ha, hi], Nat.succ_le_succ hij⟩

theorem dictGet?_isSome_of_mem {d : List (String × List ℚ)} {x : String}
    (hx : x ∈ d.map Prod.fst) : (dictGet? d x).isSome := by
  induction d with
  | nil => simp at hx
  | cons p rest ih =>
      by_cases hp : p.1 = x
      · simp [dictGet?, hp]
      · rcases List.mem_map.mp hx with ⟨q, hq, hqx⟩
        rcases List.mem_cons.mp hq with h | h
        · exact absurd (h ▸ hqx) hp
        · exact by
            simpa [dictGet?, hp] using ih (List.mem_map.mpr ⟨q, h, hqx⟩)

theorem dictGet?_getElem :
    ∀ {d : List (String × List ℚ)}, (d.map Prod.fst).Nodup →
      ∀ {i : ℕ} (hi : i < d.length), dictGet? d (d[i].1) = some d[i].2
  | [], _, i, hi => by simp at hi
  | p :: rest, hnd, i, hi => by
      have hnd' : p.1 ∉ rest.map Prod.fst ∧ (rest.map Prod.fst).Nodup := by
        rw [List.map_cons, List.nodup_cons] at hnd; exact hnd
      match i with
      | 0 => simp [dictGet?]
      | i + 1 =>
          have hi' : i < rest.length := by simpa using hi
          have hne : p.1 ≠ rest[i].1 := fun hcontra =>
            hnd'.1 (List.mem_map.mpr ⟨rest[i], List.getElem_mem hi', hcontra.symm⟩)
          simpa [dictGet?, hne] using dictGet?_getElem hnd'.2 hi'

theorem argsort_perm (vals : List ℚ) :
    (argsort vals).Perm (List.range vals.length) :=
  List.perm_insertionSort _ _

theorem argsort_sorted (vals : List ℚ) :
    (argsort vals).Sorted (fun i j => vals.getD i 0 ≤ vals.getD j 0) := by
  letI : IsTotal ℕ (fun i j => vals.getD i 0 ≤ vals.getD j 0) :=
    ⟨fun a b => le_total (vals.getD a 0) (vals.getD b 0)⟩
  letI : IsTrans ℕ (fun i j => vals.getD i 0 ≤ vals.getD j 0) :=
    ⟨fun a b c hab hbc => le_trans hab hbc⟩
  exact List.sorted_insertionSort _ _

theorem argsort_length (vals : List ℚ) : (argsort vals).length = vals.length := by
  simpa using (argsort_perm vals).length_eq

theorem argsort_mem_lt {vals : List ℚ} {i : ℕ} (h : i ∈ argsort vals) :
    i < vals.length := by
  simpa using ((argsort_perm vals).mem_iff).mp h

theorem some_obind {α β : Type} (a : α) (f : α → Option β) : (some a >>= f) = f a := rfl

theorem none_obind {α β : Type} (f : α → Option β) : ((none : Option α) >>= f) = none := rfl

theorem obind_eq_some {α β : Type} {x : Option α} {f : α → Option β} {b : β} :
    (x >>= f) = some b ↔ ∃ a, x = some a ∧ f a = some b := Option.bind_eq_some

theorem mkBarCall_some {data : List (String × List ℚ)}
    {labels colors hatches : List (Option String)} {s : ℚ} {origin : ℕ} {u : Bool}
    {nbars n : ℕ} {c : BarCall}
    (h : mkBarCall data labels colors hatches s origin u nbars n = some c) :
    c.loc = barLoc origin nbars data.length s n ∧
    c.width = 1 / (nbars : ℚ) * (1 - s) := by
  simp only [mkBarCall, obind_eq_some, Option.pure_def, Option.some.injEq] at h
  rcases h with ⟨hts, _, lab, _, col, _, hat, _, hc⟩
  rw [← hc]
  exact ⟨rfl, rfl⟩

theorem renderSingle_eq_some {data : List (String × List ℚ)}
    {labels colors hatches : List (Option String)} {s : ℚ} {origin : ℕ} {u : Bool}
    {calls : List BarCall}
    (h : renderSingle data labels colors hatches s origin u = some calls) :
    ∃ p0, data.head? = some p0 ∧ p0.2.length ≠ 0 ∧
      omapM (mkBarCall data labels colors hatches s origin u p0.2.length)
        (List.range p0.2.length) = some calls := by
  cases data with
  | nil =>
      simp only [renderSingle, List.map_nil, List.head?_nil, none_obind] at h
      exact absurd h (by simp)
  | cons p rest =>
      simp only [renderSingle, List.map_cons, List.head?_cons, some_obind] at h
      by_cases h0 : p.2.length = 0
      · rw [if_pos h0] at h; exact absurd h (by simp)
      · rw [if_neg h0] at h
        exact ⟨p, rfl, h0, h⟩

theorem renderSingle_length {data : List (String × List ℚ)}
    {labels colors hatches : List (Option String)} {s : ℚ} {origin : ℕ} {u : Bool}
    {calls : List BarCall} {p0 : String × List ℚ}
    (h : renderSingle data labels colors hatches s origin u = some calls)
    (hd : data.head? = some p0) :
    calls.length = p0.2.length := by
  rcases renderSingle_eq_some h with ⟨q, hq, _, hom⟩
  rw [hd] at hq
  cases Option.some.inj hq
  rw [omapM_length hom, List.length_range]

theorem renderSingle_call {data : List (String × List ℚ)}
    {labels colors hatches : List (Option String)} {s : ℚ} {origin : ℕ} {u : Bool}
    {calls : List BarCall} {p0 : String × List ℚ}
    (h : renderSingle data labels colors hatches s origin u = some calls)
    (hd : data.head? = some p0) {n : ℕ} (hn : n < p0.2.length) :
    ∃ c, calls[n]? = some c ∧ c.loc = barLoc origin p0.2.length data.length s n ∧
      c.width = 1 / ((p0.2.length : ℚ)) * (1 - s) := by
  rcases renderSingle_eq_some h with ⟨q, hq, hq0, hom⟩
  rw [hd] at hq
  cases Option.some.inj hq
  have hlen : calls.length = p0.2.length := by
    rw [omapM_length hom, List.length_range]
  have hn' : n < calls.length := hlen ▸ hn
  have hsome : calls[n]? = some calls[n] := List.getElem?_eq_getElem hn'
  have hmk : mkBarCall data labels colors hatches s origin u p0.2.length n = some calls[n] := by
    have := omapM_getElem? hom n
    rw [List.getElem?_range hn, hsome] at this
    exact (Option.some_bind _ _ ▸ this).symm
  rcases mkBarCall_some hmk with ⟨hloc, hw⟩
  exact ⟨calls[n], hsome, hloc, hw⟩

theorem barLoc_getElem {origin nbars dataLen : ℕ} {s : ℚ} {n i : ℕ} (hi : i < dataLen) :
    (barLoc origin nbars dataLen s n)[i]? =
      some ((origin : ℚ) + i + (n : ℚ) / (nbars : ℚ) * (1 - s) - 1/2 + s/2) := by
  rw [barLoc, List.getElem?_map, List.getElem?_range hi, Option.map_some']

/-! ### C1 / C2: bar positions and widths inside one rendered group -/

/-- C1: in a rendered group with `N` series (`N` = the length of the first
x-label's value list), series `n`'s bar at x-label index `i` has its left edge
at `origin + i + (n/N)*(1 - bar_spacing) - 1/2 + bar_spacing/2`; with the
`align='edge'` alignment used, the cluster of `N` bars at index `i` spans
`[origin + i - (1-bar_spacing)/2, origin + i + (1-bar_spacing)/2]` (series `0`
starts at the left endpoint, series `N-1` ends at the right endpoint, and
every bar lies inside), an interval centered on the x-axis position
`origin + i`. -/
theorem C1_bar_positions
    (data : List (String × List ℚ)) (labels colors hatches : List (Option String))
    (s : ℚ) (origin : ℕ) (u : Bool) (calls : List BarCall)
    (p0 : String × List ℚ) (n i : ℕ)
    (h : renderSingle data labels colors hatches s origin u = some calls)
    (hd : data.head? = some p0)
    (hn : n < p0.2.length) (hi : i < data.length) (hs : s ≤ 1) :
    ∃ c, calls[n]? = some c ∧
      c.loc[i]? = some ((origin : ℚ) + (i : ℚ) +
        ((n : ℚ) / (p0.2.length : ℚ)) * (1 - s) - 1/2 + s/2) ∧
      (n = 0 → c.loc[i]? = some ((origin : ℚ) + (i : ℚ) - (1 - s)/2)) ∧
      (n = p0.2.length - 1 →
        c.loc.getD i 0 + c.width = (origin : ℚ) + (i : ℚ) + (1 - s)/2) ∧
      (origin : ℚ) + (i : ℚ) - (1 - s)/2 ≤ c.loc.getD i 0 ∧
      c.loc.getD i 0 + c.width ≤ (origin : ℚ) + (i : ℚ) + (1 - s)/2 ∧
      (((origin : ℚ) + (i : ℚ) - (1 - s)/2) + ((origin : ℚ) + (i : ℚ) + (1 - s)/2)) / 2
        = (origin : ℚ) + (i : ℚ) := by
  obtain ⟨c, hc, hloc, hw⟩ := renderSingle_call h hd hn
  have hN : 0 < p0.2.length := Nat.pos_of_ne_zero (by omega)
  have hNq : (0 : ℚ) < (p0.2.length : ℚ) := by exact_mod_cast hN
  have hval : c.loc[i]? = some ((origin : ℚ) + (i : ℚ) +
      ((n : ℚ) / (p0.2.length : ℚ)) * (1 - s) - 1/2 + s/2) := by
    rw [hloc]; exact barLoc_getElem hi
  have hgd : c.loc.getD i 0 = (origin : ℚ) + (i : ℚ) +
      ((n : ℚ) / (p0.2.length : ℚ)) * (1 - s) - 1/2 + s/2 := by
    rw [List.getD_eq_getElem?_getD, hval]; rfl
  have h1s : (0 : ℚ) ≤ 1 - s := by linarith
  have hfr0 : (0 : ℚ) ≤ (n : ℚ) / (p0.2.length : ℚ) :=
    div_nonneg (by positivity) (le_of_lt hNq)
  refine ⟨c, hc, hval, ?_, ?_, ?_, ?_, by ring⟩
  · intro hn0
    subst hn0
    rw [hval]
    congr 1
    push_cast
    ring
  · intro hlast
    subst hlast
    rw [hgd, hw, Nat.cast_sub (Nat.one_le_iff_ne_zero.mpr (by omega))]
    field_simp
    ring
  · rw [hgd]
    have := mul_nonneg hfr0 h1s
    linarith
  · rw [hgd, hw]
    have hfrac : ((n : ℚ) + 1) / (p0.2.length : ℚ) ≤ 1 := by
      rw [div_le_one hNq]
      exact_mod_cast hn
    have key : ((n : ℚ) + 1) / (p0.2.length : ℚ) * (1 - s) ≤ 1 - s := by
      calc ((n : ℚ) + 1) / (p0.2.length : ℚ) * (1 - s) ≤ 1 * (1 - s) :=
            mul_le_mul_of_nonneg_right hfrac h1s
        _ = 1 - s := one_mul _
    have hsum : (n : ℚ) / (p0.2.length : ℚ) * (1 - s) +
        1 / (p0.2.length : ℚ) * (1 - s) = ((n : ℚ) + 1) / (p0.2.length : ℚ) * (1 - s) := by
      ring
    linarith

/-- Concrete data for evaluating the layout theorems: one series `A` with
values `x ↦ 2`, `y ↦ 1`. -/
def wData : List (String × List ℚ) := [("x", [2]), ("y", [1])]

/-- What `_render_single` produces on `wData` with the default spacing. -/
def wCalls : List BarCall :=
  [{ loc := [-3/8, 5/8], heights := [2, 1], width := 3/4,
     label := some "A", color := none, hatch := none }]

theorem C1_bar_positions_w :
    ∃ c, wCalls[0]? = some c ∧
      c.loc[1]? = some ((0 : ℚ) + (1 : ℚ) +
        ((0 : ℚ) / ((("x", [(2 : ℚ)]) : String × List ℚ).2.length : ℚ)) * (1 - 1/4) - 1/2 + (1/4)/2) ∧
      (0 = 0 → c.loc[1]? = some ((0 : ℚ) + (1 : ℚ) - (1 - 1/4)/2)) ∧
      (0 = (("x", [(2 : ℚ)]) : String × List ℚ).2.length - 1 →
        c.loc.getD 1 0 + c.width = (0 : ℚ) + (1 : ℚ) + (1 - 1/4)/2) ∧
      (0 : ℚ) + (1 : ℚ) - (1 - 1/4)/2 ≤ c.loc.getD 1 0 ∧
      c.loc.getD 1 0 + c.width ≤ (0 : ℚ) + (1 : ℚ) + (1 - 1/4)/2 ∧
      (((0 : ℚ) + (1 : ℚ) - (1 - 1/4)/2) + ((0 : ℚ) + (1 : ℚ) + (1 - 1/4)/2)) / 2
        = (0 : ℚ) + (1 : ℚ) :=
  C1_bar_positions wData [some "A"] [none] [none] (1/4) 0 true wCalls
    ("x", [2]) 0 1
    (by norm_num [renderSingle, mkBarCall, omapM, barLoc, wData, wCalls, List.range_succ])
    rfl (by decide) (by decide) (by norm_num)

/-- C2: every bar of a rendered (sub)group whose first x-label has `N` values
is drawn with the same width `(1 - bar_spacing)/N`; with the default
`bar_spacing = 1/4` this is `(3/4)/N`. -/
theorem C2_bar_width
    (data : List (String × List ℚ)) (labels colors hatches : List (Option String))
    (s : ℚ) (origin : ℕ) (u : Bool) (calls : List BarCall) (p0 : String × List ℚ)
    (h : renderSingle data labels colors hatches s origin u = some calls)
    (hd : data.head? = some p0) (c : BarCall) (hc : c ∈ calls) :
    c.width = (1 - s) / (p0.2.length : ℚ) ∧
      (s = 1/4 → c.width = (3/4) / (p0.2.length : ℚ)) := by
  obtain ⟨n, hn⟩ := List.mem_iff_getElem?.mp hc
  have hlen : calls.length = p0.2.length := renderSingle_length h hd
  have hn' : n < p0.2.length := by
    rw [← hlen]
    exact (List.getElem?_eq_some.mp hn).1
  obtain ⟨c', hc', _, hw⟩ := renderSingle_call h hd hn'
  rw [hn] at hc'
  cases Option.some.inj hc'
  constructor
  · rw [hw]; ring
  · intro hs4
    rw [hw, hs4]
    ring

theorem C2_bar_width_w :
    ({ loc := [-3/8, 5/8], heights := [2, 1], width := 3/4,
       label := some "A", color := none, hatch := none : BarCall }).width =
        (1 - 1/4) / ((("x", [(2 : ℚ)]) : String × List ℚ).2.length : ℚ) ∧
      ((1 : ℚ)/4 = 1/4 →
        ({ loc := [-3/8, 5/8], heights := [2, 1], width := 3/4,
           label := some "A", color := none, hatch := none : BarCall }).width =
          (3/4) / ((("x", [(2 : ℚ)]) : String × List ℚ).2.length : ℚ)) :=
  C2_bar_width wData [some "A"] [none] [none] (1/4) 0 true wCalls
    ("x", [2])
    (by norm_num [renderSingle, mkBarCall, omapM, barLoc, wData, wCalls, List.range_succ])
    rfl
    { loc := [-3/8, 5/8], heights := [2, 1], width := 3/4,
      label := some "A", color := none, hatch := none } (by norm_num [wCalls])

/-! ### Characterizing `Bar.sort` -/

theorem barSort_ungrouped {st : BarState} {label : String} {reverse : Bool} {st' : BarState}
    (hg : st.groups = none) (h : barSort st label reverse = some st') :
    ∃ idx vals bd, pyIndex st.labels label = some idx ∧
      omapM (fun p => p.2[idx]?) st.bar_data = some vals ∧
      omapM (fun x => (dictGet? st.bar_data x).map fun v => (x, v))
        ((argsort vals).map (fun i => (st.bar_data.map Prod.fst).getD i "")) = some bd ∧
      st' = { st with bar_data := bd, groups := none } := by
  unfold barSort at h
  rw [hg] at h
  rw [show ∀ x : Option ℕ, ∀ f : ℕ → Option BarState, (x >>= f) = x.bind f from fun _ _ => rfl]
    at h
  rcases Option.bind_eq_some.mp h with ⟨idx, hidx, h2⟩
  simp only [obind_eq_some, Option.pure_def, Option.some.injEq] at h2
  rcases h2 with ⟨vals, hvals, bd, hbd, hst⟩
  exact ⟨idx, vals, bd, hidx, hvals, hbd, hst.symm⟩

theorem barSort_grouped {st : BarState} {label : String} {reverse : Bool} {st' : BarState}
    {gs : List (String × List String)}
    (hg : st.groups = some gs) (h : barSort st label reverse = some st') :
    ∃ idx gs', pyIndex st.labels label = some idx ∧
      omapM (groupSortOne st.bar_data idx reverse) gs = some gs' ∧
      st' = { st with groups := some gs' } := by
  unfold barSort at h
  rw [hg] at h
  rw [show ∀ x : Option ℕ, ∀ f : ℕ → Option BarState, (x >>= f) = x.bind f from fun _ _ => rfl]
    at h
  rcases Option.bind_eq_some.mp h with ⟨idx, hidx, h2⟩
  simp only [obind_eq_some, Option.pure_def, Option.some.injEq] at h2
  rcases h2 with ⟨gs', hgs, hst⟩
  exact ⟨idx, gs', hidx, hgs, hst.symm⟩

theorem groupSortOne_some {bar_data : List (String × List ℚ)} {label_idx : ℕ} {reverse : Bool}
    {g g' : String × List String}
    (h : groupSortOne bar_data label_idx reverse g = some g') :
    ∃ vals, omapM (fun x => do
        let v ← dictGet? bar_data x
        let y ← v[label_idx]?
        pure (cond reverse (-y) y)) g.2 = some vals ∧
      g' = (g.1, (argsort vals).map (fun i => g.2.getD i "")) := by
  simp only [groupSortOne, obind_eq_some, Option.pure_def, Option.some.injEq] at h
  rcases h with ⟨vals, hvals, hg'⟩
  exact ⟨vals, hvals, hg'.symm⟩

theorem perm_map_getD {α : Type} (d : α) (l : List α) {order : List ℕ}
    (hp : order.Perm (List.range l.length)) :
    (order.map (fun i => l.getD i d)).Perm l := by
  have := hp.map (fun i => l.getD i d)
  rwa [map_getD_range] at this

/-- The ungrouped rebuild `{x: bar_data[x] for x in xs}` is just the rows of
`bar_data` reordered by the argsort permutation (keys unique). -/
theorem sortUngrouped_bd {st : BarState} {idx : ℕ} {vals : List ℚ}
    {bd : List (String × List ℚ)}
    (hnd : (st.bar_data.map Prod.fst).Nodup)
    (hvals : omapM (fun p => p.2[idx]?) st.bar_data = some vals)
    (hbd : omapM (fun x => (dictGet? st.bar_data x).map fun v => (x, v))
        ((argsort vals).map (fun i => (st.bar_data.map Prod.fst).getD i "")) = some bd) :
    bd = (argsort vals).map (fun i => st.bar_data.getD i ("", [])) := by
  have hm : vals.length = st.bar_data.length := omapM_length hvals
  apply List.ext_getElem?
  intro j
  have hbdj := omapM_getElem? hbd j
  rw [List.getElem?_map] at hbdj
  rw [List.getElem?_map]
  cases ho : (argsort vals)[j]? with
  | none => rw [ho] at hbdj; simpa using hbdj
  | some i =>
      rw [ho] at hbdj
      simp only [Option.map_some', Option.some_bind] at hbdj
      have hi : i < st.bar_data.length := by
        rw [← hm]
        exact argsort_mem_lt (List.mem_iff_getElem?.mpr ⟨j, ho⟩)
      have hkey : (st.bar_data.map Prod.fst).getD i "" = st.bar_data[i].1 := by
        rw [List.getD_eq_getElem?_getD, List.getElem?_map,
          List.getElem?_eq_getElem hi]
        rfl
      have hrow : st.bar_data.getD i ("", []) = st.bar_data[i] := by
        rw [List.getD_eq_getElem?_getD, List.getElem?_eq_getElem hi]
        rfl
      rw [hbdj, hkey, dictGet?_getElem hnd hi, Option.map_some', Option.map_some', hrow]

/-- For each group position, sorting keeps the group name and permutes its
x-label list. -/
theorem sortGrouped_at {bar_data : List (String × List ℚ)} {idx : ℕ} {rev : Bool}
    {gs gs' : List (String × List String)}
    (hgs : omapM (groupSortOne bar_data idx rev) gs = some gs')
    {k : ℕ} (hk : k < gs.length) (hk' : k < gs'.length) :
    gs'[k].1 = gs[k].1 ∧ gs'[k].2.Perm gs[k].2 := by
  have h1 := omapM_getElem? hgs k
  rw [List.getElem?_eq_getElem hk, List.getElem?_eq_getElem hk', Option.some_bind] at h1
  obtain ⟨vals, hvals, hg'⟩ := groupSortOne_some h1.symm
  constructor
  · rw [hg']
  · rw [hg']
    have hp := (argsort_perm vals).map (fun i => gs[k].2.getD i "")
    rw [omapM_length hvals, map_getD_range] at hp
    exact hp

/-! ### C4 / C8 / C9: the `sort` operation -/

/-- A small ungrouped state: one series `A` with `x ↦ 2`, `y ↦ 1` (reachable
by `add_series(['x','y'], [2,1], label='A')`). -/
def stW : BarState :=
  { initBar with
    bar_data := [("x", [2]), ("y", [1])]
    labels := [some "A"]
    colors := [none]
    hatches := [none] }

/-- `stW` after `sort('A', …)`: ascending in series `A`. -/
def stWs : BarState :=
  { stW with bar_data := [("y", [1]), ("x", [2])] }

/-- A small grouped state: one series `A` with `a ↦ 1`, `b ↦ 2` and one group
`g = [a, b]`. -/
def stG : BarState :=
  { initBar with
    bar_data := [("a", [1]), ("b", [2])]
    labels := [some "A"]
    colors := [none]
    hatches := [none]
    groups := some [("g", ["a", "b"])] }

/-- `stG` after `sort('A', reverse=True)`: group `g` reordered descending. -/
def stGs : BarState :=
  { stG with groups := some [("g", ["b", "a"])] }

/-- C4: the claim says `sort(label, reverse=True)` puts the selected series'
values in descending order; the method's own docstring says the same
("specifies whether to sort large to small or small to large").  On an
ungrouped state the code ignores `reverse` entirely: sorting `x ↦ 2, y ↦ 1`
on series `A` with `reverse=True` yields values `[1, 2]` (ascending), not the
`[2, 1]` the claim requires. -/
theorem C4_ungrouped_reverse_eval :
    barSort stW "A" true = some stWs ∧
    stWs.bar_data.map (fun p => p.2.getD 0 0) = [1, 2] ∧
    ([1, 2] : List ℚ) ≠ [2, 1] := by
  refine ⟨?_, ?_, ?_⟩
  · norm_num [barSort, stW, stWs, initBar, pyIndex, omapM, argsort, List.insertionSort,
      List.orderedInsert, dictGet?, List.range_succ,
      show ("x" : String) ≠ "y" from by decide, show ("y" : String) ≠ "x" from by decide]
  · norm_num [stWs, stW, initBar]
  · norm_num

/-- C8: on an ungrouped state the `reverse` flag is never consulted:
`sort(label, True)` and `sort(label, False)` return identical states, and the
result is always ascending in the selected series' values. -/
theorem C8_reverse_irrelevant (st : BarState) (label : String)
    (hg : st.groups = none) (hl : some label ∈ st.labels)
    (hnd : (st.bar_data.map Prod.fst).Nodup) :
    barSort st label true = barSort st label false ∧
    ∀ st' idx, barSort st label true = some st' → pyIndex st.labels label = some idx →
      List.Sorted (· ≤ ·) (st'.bar_data.map (fun p => p.2.getD idx 0)) := by
  refine ⟨?_, ?_⟩
  · unfold barSort
    rw [hg]
  · intro st' idx h hidx
    obtain ⟨idx', vals, bd, hidx', hvals, hbd, hst⟩ := barSort_ungrouped hg h
    have heq : idx = idx' := Option.some.inj (hidx.symm.trans hidx')
    subst heq
    have hbd' : bd = (argsort vals).map (fun i => st.bar_data.getD i ("", [])) :=
      sortUngrouped_bd hnd hvals hbd
    have hdata : st'.bar_data = bd := by rw [hst]
    rw [hdata, hbd', List.map_map]
    have hptwise : ∀ i ∈ argsort vals,
        ((fun p => p.2.getD idx 0) ∘ (fun i => st.bar_data.getD i ("", []))) i
          = vals.getD i 0 := by
      intro i hi
      have hilt : i < vals.length := argsort_mem_lt hi
      have hib : i < st.bar_data.length := by rw [← omapM_length hvals]; exact hilt
      have hrow : st.bar_data.getD i ("", []) = st.bar_data[i] := by
        rw [List.getD_eq_getElem?_getD, List.getElem?_eq_getElem hib]; rfl
      have hv := omapM_getElem? hvals i
      rw [List.getElem?_eq_getElem hilt, List.getElem?_eq_getElem hib,
        Option.some_bind] at hv
      simp only [Function.comp_apply, hrow]
      rw [List.getD_eq_getElem?_getD, ← hv]
      rw [List.getD_eq_getElem?_getD, List.getElem?_eq_getElem hilt]
    rw [List.map_congr_left hptwise]
    exact List.Pairwise.map _ (fun a b hab => hab) (argsort_sorted vals)

theorem C8_reverse_irrelevant_w :
    barSort stW "A" true = barSort stW "A" false ∧
    List.Sorted (· ≤ ·) (stWs.bar_data.map (fun p => p.2.getD 0 0)) :=
  ⟨(C8_reverse_irrelevant stW "A" rfl (by decide) (by decide)).1,
   (C8_reverse_irrelevant stW "A" rfl (by decide) (by decide)).2 stWs 0
     (by norm_num [barSort, stW, stWs, initBar, pyIndex, omapM, argsort,
        List.insertionSort, List.orderedInsert, dictGet?, List.range_succ,
        show ("x" : String) ≠ "y" from by decide, show ("y" : String) ≠ "x" from by decide])
     (by decide)⟩

/-- C9: `sort` never changes the stored data, only its order.  Ungrouped: the
resulting `bar_data` holds the same (x-label, value-list) pairs, merely
reordered, and `groups` stays `None`.  Grouped: `bar_data` is untouched and
each group keeps its name while its x-label list is permuted.  In both cases
`labels`, `colors` and `hatches` are unchanged. -/
theorem C9_sort_frame (st : BarState) (label : String) (reverse : Bool) (st' : BarState)
    (hnd : (st.bar_data.map Prod.fst).Nodup)
    (h : barSort st label reverse = some st') :
    st'.labels = st.labels ∧ st'.colors = st.colors ∧ st'.hatches = st.hatches ∧
      (st.groups = none → st'.groups = none ∧ st'.bar_data.Perm st.bar_data) ∧
      (∀ gs, st.groups = some gs →
        st'.bar_data = st.bar_data ∧
        ∃ gs', st'.groups = some gs' ∧ gs'.length = gs.length ∧
          gs'.map Prod.fst = gs.map Prod.fst ∧
          ∀ k (hk : k < gs.length) (hk' : k < gs'.length),
            gs'[k].2.Perm gs[k].2) := by
  cases hg : st.groups with
  | none =>
      obtain ⟨idx, vals, bd, hidx, hvals, hbd, hst⟩ := barSort_ungrouped hg h
      subst hst
      refine ⟨rfl, rfl, rfl, fun _ => ⟨rfl, ?_⟩, fun gs hgseq => ?_⟩
      · rw [sortUngrouped_bd hnd hvals hbd]
        have hp := (argsort_perm vals).map (fun i => st.bar_data.getD i ("", []))
        rw [omapM_length hvals, map_getD_range] at hp
        exact hp
      · exact absurd hgseq (by simp)
  | some gs0 =>
      obtain ⟨idx, gs', hidx, hgs, hst⟩ := barSort_grouped hg h
      subst hst
      refine ⟨rfl, rfl, rfl, fun hnone => absurd hnone (by simp), fun gs hgseq => ?_⟩
      obtain rfl : gs0 = gs := Option.some.inj hgseq
      have hlen : gs'.length = gs0.length := omapM_length hgs
      refine ⟨rfl, gs', rfl, hlen, ?_, fun k hk hk' => (sortGrouped_at hgs hk hk').2⟩
      apply List.ext_getElem?
      intro k
      rw [List.getElem?_map, List.getElem?_map]
      by_cases hk : k < gs0.length
      · have hk' : k < gs'.length := by omega
        rw [List.getElem?_eq_getElem hk, List.getElem?_eq_getElem hk',
          Option.map_some', Option.map_some', (sortGrouped_at hgs hk hk').1]
      · rw [List.getElem?_eq_none (by omega), List.getElem?_eq_none (by omega)]

theorem C9_sort_frame_w :
    stGs.labels = stG.labels ∧ stGs.colors = stG.colors ∧ stGs.hatches = stG.hatches ∧
      (stG.groups = none → stGs.groups = none ∧ stGs.bar_data.Perm stG.bar_data) ∧
      (∀ gs, stG.groups = some gs →
        stGs.bar_data = stG.bar_data ∧
        ∃ gs', stGs.groups = some gs' ∧ gs'.length = gs.length ∧
          gs'.map Prod.fst = gs.map Prod.fst ∧
          ∀ k (hk : k < gs.length) (hk' : k < gs'.length),
            gs'[k].2.Perm gs[k].2) :=
  C9_sort_frame stG "A" true stGs (by decide)
    (by norm_num [barSort, stG, stGs, initBar, pyIndex, omapM, argsort, groupSortOne,
      List.insertionSort, List.orderedInsert, dictGet?, List.range_succ,
      show ("a" : String) ≠ "b" from by decide, show ("b" : String) ≠ "a" from by decide])

/-! ### C3 / C6: layout of grouped rendering -/

/-- The size of the dict `render` builds for a group: its number of distinct
x-labels (duplicates in the group's x-label list collapse). -/
def distinctSize (g : String × List String) : ℕ := g.2.eraseDups.length

/-- The x-axis origin at which `render` starts the `k`-th group: the dict
sizes (distinct x-label counts) of the earlier groups plus `k` gaps of
`group_spacing`. -/
def groupOrigin (gs : List (String × List String)) (spacing k : ℕ) : ℕ :=
  ((gs.take k).map distinctSize).sum + k * spacing

theorem groupOrigin_zero (gs : List (String × List String)) (spacing : ℕ) :
    groupOrigin gs spacing 0 = 0 := by
  simp [groupOrigin]

theorem groupOrigin_succ (g : String × List String) (gs : List (String × List String))
    (spacing k : ℕ) :
    groupOrigin (g :: gs) spacing (k + 1) =
      distinctSize g + spacing + groupOrigin gs spacing k := by
  simp only [groupOrigin, List.take_succ_cons, List.map_cons, List.sum_cons, Nat.succ_mul]
  omega

theorem groupData_length {bar_data : List (String × List ℚ)} {gxs : List String}
    {data : List (String × List ℚ)} (h : groupData bar_data gxs = some data) :
    data.length = gxs.eraseDups.length := omapM_length h

theorem renderGroups_cons {st : BarState} {ylim : ℚ × ℚ} {gname : String}
    {gxs : List String} {rest : List (String × List String)} {origin : ℕ}
    {res : List BarCall × List ℕ × List String × List (ℚ × ℚ × String)}
    (h : renderGroups st ylim ((gname, gxs) :: rest) origin = some res) :
    ∃ data calls rec4,
      groupData st.bar_data gxs = some data ∧
      renderSingle data st.labels st.colors st.hatches st.bar_spacing origin
        (decide (origin = 0)) = some calls ∧
      renderGroups st ylim rest (origin + data.length + st.group_spacing) = some rec4 ∧
      res = (calls ++ rec4.1,
             ((List.range gxs.length).map (fun i => origin + i)) ++ rec4.2.1,
             gxs ++ rec4.2.2.1,
             ((origin : ℚ) + (data.length : ℚ) / 2 - 1/2,
              groupLabelY st.group_label_loc ylim, gname) :: rec4.2.2.2) := by
  simp only [renderGroups, obind_eq_some, Option.pure_def, Option.some.injEq] at h
  rcases h with ⟨data, hdata, calls, hcalls, ⟨a, b, c, d⟩, hrec, hres⟩
  exact ⟨data, calls, (a, b, c, d), hdata, hcalls, hrec, hres.symm⟩

theorem renderGroups_labels (st : BarState) (ylim : ℚ × ℚ) :
    ∀ (gs : List (String × List String)) (origin : ℕ)
      (res : List BarCall × List ℕ × List String × List (ℚ × ℚ × String)),
      renderGroups st ylim gs origin = some res →
      res.2.2.1 = (gs.map Prod.snd).flatten
  | [], _, res, h => by
      simp only [renderGroups, Option.some.injEq] at h
      rw [← h]
      simp
  | (gname, gxs) :: rest, origin, res, h => by
      obtain ⟨data, calls, rec4, _, _, hrec, hres⟩ := renderGroups_cons h
      have ih := renderGroups_labels st ylim rest _ _ hrec
      rw [hres]
      simp only [List.map_cons, List.flatten_cons]
      rw [← ih]

theorem renderGroups_locs (st : BarState) (ylim : ℚ × ℚ) :
    ∀ (gs : List (String × List String)) (origin : ℕ)
      (res : List BarCall × List ℕ × List String × List (ℚ × ℚ × String)),
      renderGroups st ylim gs origin = some res →
      res.2.1 = (List.range gs.length).flatMap (fun k =>
        (List.range ((gs.getD k ("", [])).2.length)).map
          (fun i => origin + groupOrigin gs st.group_spacing k + i))
  | [], _, res, h => by
      simp only [renderGroups, Option.some.injEq] at h
      rw [← h]
      simp
  | (gname, gxs) :: rest, origin, res, h => by
      obtain ⟨data, calls, rec4, hdata, _, hrec, hres⟩ := renderGroups_cons h
      have ih := renderGroups_locs st ylim rest _ _ hrec
      have hds : data.length = distinctSize (gname, gxs) := groupData_length hdata
      rw [hres]
      show ((List.range gxs.length).map (fun i => origin + i)) ++ rec4.2.1 = _
      rw [List.length_cons, List.range_succ_eq_map, List.flatMap_cons, List.flatMap_map, ih]
      congr 1
      · apply List.map_congr_left
        intro i _
        rw [groupOrigin_zero]
        omega
      · have hfe : (fun k => (List.range ((rest.getD k ("", [])).2.length)).map
              (fun i => origin + data.length + st.group_spacing +
                groupOrigin rest st.group_spacing k + i)) =
            (fun a => (List.range ((((gname, gxs) :: rest).getD (Nat.succ a) ("", [])).2.length)).map
              (fun i => origin +
                groupOrigin ((gname, gxs) :: rest) st.group_spacing (Nat.succ a) + i)) := by
          funext a
          simp only [Nat.succ_eq_add_one, List.getD_cons_succ, groupOrigin_succ]
          apply List.map_congr_left
          intro i _
          omega
        rw [← hfe]

theorem renderGroups_texts (st : BarState) (ylim : ℚ × ℚ) :
    ∀ (gs : List (String × List String)) (origin : ℕ)
      (res : List BarCall × List ℕ × List String × List (ℚ × ℚ × String)),
      renderGroups st ylim gs origin = some res →
      res.2.2.2 = (List.range gs.length).map (fun k =>
        (((origin + groupOrigin gs st.group_spacing k : ℕ) : ℚ) +
           (distinctSize (gs.getD k ("", [])) : ℚ) / 2 - 1/2,
         groupLabelY st.group_label_loc ylim, (gs.getD k ("", [])).1))
  | [], _, res, h => by
      simp only [renderGroups, Option.some.injEq] at h
      rw [← h]
      simp
  | (gname, gxs) :: rest, origin, res, h => by
      obtain ⟨data, calls, rec4, hdata, _, hrec, hres⟩ := renderGroups_cons h
      have ih := renderGroups_texts st ylim rest _ _ hrec
      have hds : data.length = distinctSize (gname, gxs) := groupData_length hdata
      rw [hres]
      show (((origin : ℚ) + (data.length : ℚ) / 2 - 1/2,
             groupLabelY st.group_label_loc ylim, gname) :: rec4.2.2.2) = _
      rw [List.length_cons, List.range_succ_eq_map, List.map_cons, List.map_map, ih]
      congr 1
      · simp only [List.getD_cons_zero, groupOrigin_zero, Nat.add_zero]
        rw [hds]
      · have hfe : (fun k =>
              (((origin + data.length + st.group_spacing +
                  groupOrigin rest st.group_spacing k : ℕ) : ℚ) +
                 (distinctSize (rest.getD k ("", [])) : ℚ) / 2 - 1/2,
               groupLabelY st.group_label_loc ylim, (rest.getD k ("", [])).1)) =
            ((fun k =>
              (((origin + groupOrigin ((gname, gxs) :: rest) st.group_spacing k : ℕ) : ℚ) +
                 (distinctSize (((gname, gxs) :: rest).getD k ("", [])) : ℚ) / 2 - 1/2,
               groupLabelY st.group_label_loc ylim,
               (((gname, gxs) :: rest).getD k ("", [])).1)) ∘ Nat.succ) := by
          funext a
          simp only [Function.comp_apply, Nat.succ_eq_add_one, List.getD_cons_succ,
            groupOrigin_succ]
          have harith : origin + data.length + st.group_spacing +
              groupOrigin rest st.group_spacing a =
              origin + (distinctSize (gname, gxs) + st.group_spacing +
                groupOrigin rest st.group_spacing a) := by omega
          rw [harith]
        rw [hfe]

theorem render_grouped_eq {st : BarState} {ylim : ℚ × ℚ} {gs : List (String × List String)}
    {out : RenderOut} (hg : st.groups = some gs) (h : render st ylim = some out) :
    ∃ res, renderGroups st ylim gs 0 = some res ∧
      out = { bars := res.1, xtick_locs := res.2.1, xtick_labels := res.2.2.1,
              xtick_settings := st.xtick_settings, group_texts := res.2.2.2,
              hlines_drawn := st.hlines_list, legend_settings := st.legend_settings } := by
  unfold render at h
  rw [hg] at h
  simp only [obind_eq_some, Option.pure_def, Option.some.injEq] at h
  rcases h with ⟨⟨a, b, c, d⟩, hrec, hout⟩
  exact ⟨(a, b, c, d), hrec, hout.symm⟩

/-- A grouped state whose first group `g = [a, a]` repeats an x-label: the
dict comprehension collapses it to one column, so the next group starts at
`1 + group_spacing = 2`, not at `2 + group_spacing = 3`. -/
def stC3 : BarState :=
  { initBar with
    bar_data := [("a", [1]), ("b", [1])]
    labels := [some "A"]
    colors := [none]
    hatches := [none]
    groups := some [("g", ["a", "a"]), ("h", ["b"])] }

/-- C3 counterexample: on `stC3` the rendered xtick locations are `[0, 1, 2]`,
whereas the claim's origins (`origin_1 = |group_0| + 1·group_spacing` with
`|group_0| = len(["a","a"]) = 2` and `group_spacing = 1`) predict
`[0, 1] ++ [3] = [0, 1, 3]`. -/
theorem C3_counterexample :
    (render stC3 (0, 1)).map (fun o => o.xtick_locs) = some [0, 1, 2] ∧
    ([0, 1, 2] : List ℕ) ≠ [0, 1, 2 + 1 * 1] := by
  constructor
  · norm_num [render, renderGroups, renderSingle, mkBarCall, groupData, groupLabelY,
      omapM, barLoc, dictGet?, stC3, initBar, List.range_succ,
      show (["a", "a"] : List String).eraseDups = ["a"] from by decide,
      show (["b"] : List String).eraseDups = ["b"] from by decide,
      show ("a" : String) ≠ "b" from by decide, show ("b" : String) ≠ "a" from by decide]
  · decide

/-- C3 (amended): with groups set, `render` lays out the `k`-th group (in
insertion order) starting at `origin_k` = (sum of the numbers of DISTINCT
x-labels of the earlier groups) + `k * group_spacing` — the dict built for
each group collapses duplicate x-labels, so the origin advances by the
distinct count, which equals the group's size whenever its x-labels are
distinct.  The group's x-labels get the consecutive integer xtick locations
`origin_k .. origin_k + len(group_k) - 1`, and the xtick labels are the
concatenation of the groups' x-label lists in group order. -/
theorem C3_group_layout (st : BarState) (ylim : ℚ × ℚ) (gs : List (String × List String))
    (out : RenderOut) (hg : st.groups = some gs) (h : render st ylim = some out) :
    out.xtick_labels = (gs.map Prod.snd).flatten ∧
    out.xtick_locs = (List.range gs.length).flatMap (fun k =>
      (List.range ((gs.getD k ("", [])).2.length)).map
        (fun i => groupOrigin gs st.group_spacing k + i)) := by
  obtain ⟨res, hres, hout⟩ := render_grouped_eq hg h
  subst hout
  refine ⟨renderGroups_labels st ylim gs 0 res hres, ?_⟩
  show res.2.1 = _
  rw [renderGroups_locs st ylim gs 0 res hres]
  have hfe : (fun k => (List.range ((gs.getD k ("", [])).2.length)).map
        (fun i => 0 + groupOrigin gs st.group_spacing k + i)) =
      (fun k => (List.range ((gs.getD k ("", [])).2.length)).map
        (fun i => groupOrigin gs st.group_spacing k + i)) := by
    funext k
    apply List.map_congr_left
    intro i _
    omega
  rw [hfe]

/-- What `render` produces on the grouped state `stG` with ylim `(0, 1)`. -/
def outG : RenderOut :=
  { bars := [{ loc := [-3/8, 5/8], heights := [1, 2], width := 3/4,
               label := some "A", color := none, hatch := none }]
    xtick_locs := [0, 1]
    xtick_labels := ["a", "b"]
    xtick_settings := []
    group_texts := [(1/2, -1/5, "g")]
    hlines_drawn := []
    legend_settings := [] }

theorem C3_group_layout_w :
    outG.xtick_labels = (([("g", ["a", "b"])] : List (String × List String)).map Prod.snd).flatten ∧
    outG.xtick_locs =
      (List.range ([("g", ["a", "b"])] : List (String × List String)).length).flatMap (fun k =>
        (List.range ((([("g", ["a", "b"])] : List (String × List String)).getD k ("", [])).2.length)).map
          (fun i => groupOrigin [("g", ["a", "b"])] stG.group_spacing k + i)) :=
  C3_group_layout stG (0, 1) [("g", ["a", "b"])] outG rfl
    (by norm_num [render, renderGroups, renderSingle, mkBarCall, groupData, groupLabelY,
      omapM, barLoc, dictGet?, stG, outG, initBar, List.range_succ,
      show (["a", "b"] : List String).eraseDups = ["a", "b"] from by decide,
      show ("a" : String) ≠ "b" from by decide, show ("b" : String) ≠ "a" from by decide])

/-- A grouped state with one group `g = [a, a]` repeating its only x-label. -/
def stC6 : BarState :=
  { initBar with
    bar_data := [("a", [1])]
    labels := [some "A"]
    colors := [none]
    hatches := [none]
    groups := some [("g", ["a", "a"])] }

/-- C6 counterexample: on `stC6` the group name is drawn at x = 0 (the dict
for the group has one distinct x-label: `0 + 1/2 - 1/2 = 0`), whereas the
claim's `origin + |group|/2 - 1/2` with `|group| = len(["a","a"]) = 2`
predicts `x = 1/2`. -/
theorem C6_counterexample :
    (render stC6 (0, 1)).map (fun o => o.group_texts.map Prod.fst) = some [0] ∧
    (0 : ℚ) ≠ 0 + 2 / 2 - 1/2 := by
  constructor
  · norm_num [render, renderGroups, renderSingle, mkBarCall, groupData, groupLabelY,
      omapM, barLoc, dictGet?, stC6, initBar, List.range_succ,
      show (["a", "a"] : List String).eraseDups = ["a"] from by decide]
  · norm_num

/-- C6 (amended): each rendered group's name is drawn at
x = `origin_k + d_k/2 - 1/2` where `d_k` is the number of DISTINCT x-labels
of the group (equal to `|group_k|` when its x-labels are distinct), and
vertically at `group_label_loc` when one was supplied at construction,
otherwise at `ymin - 0.2*(ymax - ymin)` from the axes' current y-limits. -/
theorem C6_group_label (st : BarState) (ylim : ℚ × ℚ) (gs : List (String × List String))
    (out : RenderOut) (hg : st.groups = some gs) (h : render st ylim = some out) :
    out.group_texts = (List.range gs.length).map (fun k =>
      ((groupOrigin gs st.group_spacing k : ℚ) +
         (distinctSize (gs.getD k ("", [])) : ℚ) / 2 - 1/2,
       (match st.group_label_loc with
        | none => ylim.1 - (ylim.2 - ylim.1) * (2/10)
        | some v => v),
       (gs.getD k ("", [])).1)) := by
  obtain ⟨res, hres, hout⟩ := render_grouped_eq hg h
  subst hout
  show res.2.2.2 = _
  rw [renderGroups_texts st ylim gs 0 res hres]
  apply List.map_congr_left
  intro k _
  rw [Nat.zero_add]
  rfl

theorem C6_group_label_w :
    outG.group_texts =
      (List.range ([("g", ["a", "b"])] : List (String × List String)).length).map (fun k =>
        ((groupOrigin [("g", ["a", "b"])] stG.group_spacing k : ℚ) +
           (distinctSize (([("g", ["a", "b"])] : List (String × List String)).getD k ("", [])) : ℚ) / 2 - 1/2,
         (match stG.group_label_loc with
          | none => (0 : ℚ) - ((1 : ℚ) - 0) * (2/10)
          | some v => v),
         (([("g", ["a", "b"])] : List (String × List String)).getD k ("", [])).1)) :=
  C6_group_label stG (0, 1) [("g", ["a", "b"])] outG rfl
    (by norm_num [render, renderGroups, renderSingle, mkBarCall, groupData, groupLabelY,
      omapM, barLoc, dictGet?, stG, outG, initBar, List.range_succ,
      show (["a", "b"] : List String).eraseDups = ["a", "b"] from by decide,
      show ("a" : String) ≠ "b" from by decide, show ("b" : String) ≠ "a" from by decide])

/-! ### C5: failure modes of the protocol -/

/-- C5 counterexample: rendering an empty `Bar` raises — `_render_single`
evaluates `list(data.values())[0]` on an empty dict (IndexError), so
`render()` on a freshly constructed `Bar` fails. -/
theorem C5_counterexample : render (initBar) (0, 1) = none := rfl

theorem mkBarCall_isSome {data : List (String × List ℚ)}
    {labels colors hatches : List (Option String)} {s : ℚ} {origin nbars n : ℕ}
    (hh : ∀ p ∈ data, n < p.2.length) (hlab : n < labels.length)
    (hcol : n < colors.length) (hhat : n < hatches.length) :
    (mkBarCall data labels colors hatches s origin true nbars n).isSome := by
  obtain ⟨hts, hhts⟩ := Option.isSome_iff_exists.mp
    (omapM_isSome (f := fun p => p.2[n]?) (l := data)
      (fun p hp => by simp [List.getElem?_eq_getElem (hh p hp)]))
  simp only [mkBarCall, hhts, cond_true, List.getElem?_eq_getElem hlab,
    List.getElem?_eq_getElem hcol, List.getElem?_eq_getElem hhat, some_obind]
  rfl

theorem renderSingle_isSome {data : List (String × List ℚ)}
    {labels colors hatches : List (Option String)} {s : ℚ} {origin : ℕ}
    {p0 : String × List ℚ} (hd : data.head? = some p0) (h0 : p0.2.length ≠ 0)
    (hall : ∀ p ∈ data, p0.2.length ≤ p.2.length)
    (hlab : p0.2.length ≤ labels.length) (hcol : p0.2.length ≤ colors.length)
    (hhat : p0.2.length ≤ hatches.length) :
    (renderSingle data labels colors hatches s origin true).isSome := by
  cases data with
  | nil => simp at hd
  | cons q rest =>
      obtain rfl : q = p0 := by simpa using hd
      simp only [renderSingle, List.map_cons, List.head?_cons, some_obind, if_neg h0]
      apply omapM_isSome
      intro n hn
      have hnN : n < q.2.length := List.mem_range.mp hn
      exact mkBarCall_isSome (fun p hp => lt_of_lt_of_le hnN (hall p hp))
        (lt_of_lt_of_le hnN hlab) (lt_of_lt_of_le hnN hcol) (lt_of_lt_of_le hnN hhat)

theorem render_ungrouped_eq {st : BarState} {ylim : ℚ × ℚ} {bars : List BarCall}
    (hg : st.groups = none)
    (hbars : renderSingle st.bar_data st.labels st.colors st.hatches st.bar_spacing 0 true
      = some bars) :
    render st ylim = some
      { bars := bars, xtick_locs := List.range st.bar_data.length,
        xtick_labels := st.bar_data.map Prod.fst, xtick_settings := st.xtick_settings,
        group_texts := [], hlines_drawn := st.hlines_list,
        legend_settings := st.legend_settings } := by
  unfold render
  rw [hg]
  show (renderSingle st.bar_data st.labels st.colors st.hatches st.bar_spacing 0 true >>=
      fun bars => some
        ({ bars := bars, xtick_locs := List.range st.bar_data.length,
           xtick_labels := st.bar_data.map Prod.fst, xtick_settings := st.xtick_settings,
           group_texts := [], hlines_drawn := st.hlines_list,
           legend_settings := st.legend_settings } : RenderOut)) = _
  rw [hbars, some_obind]

/-- C5 (amended): the protocol does have failure modes — sorting on a label
that was never added raises (ValueError), and rendering a group whose x-label
list contains a label absent from the stored data raises (KeyError), just as
rendering an empty `Bar` raises (IndexError) — but `render` succeeds on every
ungrouped state whose data is non-empty, whose first value list is non-empty
and no longer than any other value list, and whose series count does not
exceed the stored label/color/hatch lists (all of which hold for states
reached by `add_series` with equal-length non-empty inputs). -/
theorem C5_failure_modes :
    barSort stW "B" false = none ∧
    render (setGroup stW "g" ["zz"]) (0, 1) = none ∧
    ∀ (st : BarState) (ylim : ℚ × ℚ) (p0 : String × List ℚ),
      st.groups = none → st.bar_data.head? = some p0 → p0.2.length ≠ 0 →
      (∀ p ∈ st.bar_data, p0.2.length ≤ p.2.length) →
      p0.2.length ≤ st.labels.length → p0.2.length ≤ st.colors.length →
      p0.2.length ≤ st.hatches.length →
      ∃ out, render st ylim = some out := by
  refine ⟨rfl, rfl, ?_⟩
  intro st ylim p0 hg hd h0 hall hlab hcol hhat
  obtain ⟨bars, hbars⟩ := Option.isSome_iff_exists.mp
    (renderSingle_isSome hd h0 hall hlab hcol hhat)
  exact ⟨_, render_ungrouped_eq hg hbars⟩

theorem C5_failure_modes_w :
    ∃ out, render stW (0, 1) = some out :=
  C5_failure_modes.2.2 stW (0, 1) ("x", [2]) rfl rfl (by decide) (by decide)
    (by decide) (by decide) (by decide)

/-! ### C7: every public operation ends in a full re-render -/

/-- Each public operation's displayed output is the render of its resulting
state: every method body ends in `self.render()`, which clears the axes and
redraws everything from the stored state. -/
theorem stepOp_render {ylim : ℚ × ℚ} {st : BarState} {op : BarOp} {st' : BarState}
    {out : RenderOut} (h : stepOp ylim st op = some (st', out)) :
    render st' ylim = some out := by
  cases op with
  | add_series X Y label color hatch =>
      simp only [stepOp, obind_eq_some, Option.pure_def, Option.some.injEq,
        Prod.mk.injEq] at h
      rcases h with ⟨o, ho, h1, h2⟩
      subst h1; subst h2; exact ho
  | hlines y =>
      simp only [stepOp, obind_eq_some, Option.pure_def, Option.some.injEq,
        Prod.mk.injEq] at h
      rcases h with ⟨o, ho, h1, h2⟩
      subst h1; subst h2; exact ho
  | set_xtick_settings kvs =>
      simp only [stepOp, obind_eq_some, Option.pure_def, Option.some.injEq,
        Prod.mk.injEq] at h
      rcases h with ⟨o, ho, h1, h2⟩
      subst h1; subst h2; exact ho
  | set_legend_settings kvs =>
      simp only [stepOp, obind_eq_some, Option.pure_def, Option.some.injEq,
        Prod.mk.injEq] at h
      rcases h with ⟨o, ho, h1, h2⟩
      subst h1; subst h2; exact ho
  | set_bar_settings kvs =>
      simp only [stepOp, obind_eq_some, Option.pure_def, Option.some.injEq,
        Prod.mk.injEq] at h
      rcases h with ⟨o, ho, h1, h2⟩
      subst h1; subst h2; exact ho
  | set_group name xs =>
      simp only [stepOp, obind_eq_some, Option.pure_def, Option.some.injEq,
        Prod.mk.injEq] at h
      rcases h with ⟨o, ho, h1, h2⟩
      subst h1; subst h2; exact ho
  | sort label reverse =>
      simp only [stepOp, obind_eq_some, Option.pure_def, Option.some.injEq,
        Prod.mk.injEq] at h
      rcases h with ⟨st1, hst1, o, ho, h1, h2⟩
      subst h1; subst h2; exact ho

theorem runOps_render {ylim : ℚ × ℚ} :
    ∀ (ops : List BarOp) (start : BarState × Option RenderOut) (st : BarState)
      (fig : Option RenderOut),
      runOps ylim start ops = some (st, fig) → ops ≠ [] →
      fig = render st ylim
  | [], _, _, _, _, hne => absurd rfl hne
  | op :: rest, (st0, f0), st, fig, h, _ => by
      simp only [runOps, obind_eq_some] at h
      rcases h with ⟨⟨st1, out⟩, hstep, hrun⟩
      cases rest with
      | nil =>
          simp only [runOps, Option.some.injEq, Prod.mk.injEq] at hrun
          rcases hrun with ⟨h1, h2⟩
          subst h1; subst h2
          exact (stepOp_render hstep).symm
      | cons op2 rest2 =>
          exact runOps_render (op2 :: rest2) (st1, some out) st fig hrun (by simp)

/-- C7: after every sequence of public mutating operations (each of which
ends in `self.render()`), the displayed figure equals the render of the full
current state: the axes are cleared and bars, xticks, group labels, stored
hlines and the legend are all redrawn from the stored state. -/
theorem C7_rerender (ylim : ℚ × ℚ) (ops : List BarOp) (st : BarState)
    (fig : Option RenderOut)
    (h : runOps ylim (initBar, none) ops = some (st, fig)) (hne : ops ≠ []) :
    fig = render st ylim :=
  runOps_render ops (initBar, none) st fig h hne

/-- The state after `add_series(['a'], [1])` on a fresh `Bar`. -/
def stC7 : BarState :=
  { initBar with
    bar_data := [("a", [1])]
    labels := [none]
    colors := [none]
    hatches := [none] }

/-- What that single operation displays. -/
def outC7 : RenderOut :=
  { bars := [{ loc := [-3/8], heights := [1], width := 3/4,
               label := none, color := none, hatch := none }]
    xtick_locs := [0]
    xtick_labels := ["a"]
    xtick_settings := []
    group_texts := []
    hlines_drawn := []
    legend_settings := [] }

theorem C7_rerender_w : (some outC7 : Option RenderOut) = render stC7 (0, 1) :=
  C7_rerender (0, 1) [BarOp.add_series ["a"] [1] none none none] stC7 (some outC7)
    (by norm_num [runOps, stepOp, addSeries, dictAppend, render, renderSingle,
      mkBarCall, omapM, barLoc, stC7, outC7, initBar, List.range_succ])
    (by simp)

/-! ### C10: the three near-duplicate `Bar` variants -/

/-- Fully destructured form of a successful `mkBarCall`. -/
theorem mkBarCall_fields {data : List (String × List ℚ)}
    {labels colors hatches : List (Option String)} {s : ℚ} {origin : ℕ} {u : Bool}
    {nbars n : ℕ} {c : BarCall}
    (h : mkBarCall data labels colors hatches s origin u nbars n = some c) :
    ∃ hts lab col hat, omapM (fun p => p.2[n]?) data = some hts ∧
      cond u labels[n]? (some none) = some lab ∧
      colors[n]? = some col ∧ hatches[n]? = some hat ∧
      c = { loc := barLoc origin nbars data.length s n, heights := hts,
            width := 1 / (nbars : ℚ) * (1 - s),
            label := lab, color := col, hatch := hat } := by
  simp only [mkBarCall, obind_eq_some, Option.pure_def, Option.some.injEq] at h
  rcases h with ⟨hts, hhts, lab, hlab, col, hcol, hat, hhat, hc⟩
  exact ⟨hts, lab, col, hat, hhts, hlab, hcol, hhat, hc.symm⟩

/-- Modelled from the spec: the repository's other two `Bar` variants are not
under `src/`; the spec records three near-duplicate variants that agree on
the core layout and differ only in minor features (hatches, scoped
figure-context save/show, group label offset computation).  This is the
hatch-free variant's `_render_single` loop body: identical layout arithmetic,
no `hatch=` argument to `axes.bar`. -/
def mkBarCallNoHatch (data : List (String × List ℚ)) (labels colors : List (Option String))
    (s : ℚ) (origin : ℕ) (use_labels : Bool) (nbars n : ℕ) : Option BarCall := do
  let heights ← omapM (fun p => p.2[n]?) data
  let lab ← cond use_labels labels[n]? (some none)
  let col ← colors[n]?
  pure { loc := barLoc origin nbars data.length s n,
         heights := heights,
         width := 1 / (nbars : ℚ) * (1 - s),
         label := lab, color := col, hatch := none : BarCall }

/-- Modelled from the spec: the hatch-free variant's `_render_single`. -/
def renderSingleNoHatch (data : List (String × List ℚ)) (labels colors : List (Option String))
    (s : ℚ) (origin : ℕ) (use_labels : Bool) : Option (List BarCall) := do
  let firstRow ← (data.map Prod.snd).head?
  let nbars := firstRow.length
  if nbars = 0 then none else
  omapM (mkBarCallNoHatch data labels colors s origin use_labels nbars) (List.range nbars)

theorem mkBarCallNoHatch_fields {data : List (String × List ℚ)}
    {labels colors : List (Option String)} {s : ℚ} {origin : ℕ} {u : Bool}
    {nbars n : ℕ} {c : BarCall}
    (h : mkBarCallNoHatch data labels colors s origin u nbars n = some c) :
    ∃ hts lab col, omapM (fun p => p.2[n]?) data = some hts ∧
      cond u labels[n]? (some none) = some lab ∧
      colors[n]? = some col ∧
      c = { loc := barLoc origin nbars data.length s n, heights := hts,
            width := 1 / (nbars : ℚ) * (1 - s),
            label := lab, color := col, hatch := none } := by
  simp only [mkBarCallNoHatch, obind_eq_some, Option.pure_def, Option.some.injEq] at h
  rcases h with ⟨hts, hhts, lab, hlab, col, hcol, hc⟩
  exact ⟨hts, lab, col, hhts, hlab, hcol, hc.symm⟩

theorem renderSingleNoHatch_eq_some {data : List (String × List ℚ)}
    {labels colors : List (Option String)} {s : ℚ} {origin : ℕ} {u : Bool}
    {calls : List BarCall}
    (h : renderSingleNoHatch data labels colors s origin u = some calls) :
    ∃ p0, data.head? = some p0 ∧ p0.2.length ≠ 0 ∧
      omapM (mkBarCallNoHatch data labels colors s origin u p0.2.length)
        (List.range p0.2.length) = some calls := by
  cases data with
  | nil =>
      simp only [renderSingleNoHatch, List.map_nil, List.head?_nil, none_obind] at h
      exact absurd h (by simp)
  | cons p rest =>
      simp only [renderSingleNoHatch, List.map_cons, List.head?_cons, some_obind] at h
      by_cases h0 : p.2.length = 0
      · rw [if_pos h0] at h; exact absurd h (by simp)
      · rw [if_neg h0] at h
        exact ⟨p, rfl, h0, h⟩

/-- Modelled from the spec: variant C's group-label y position — the same
`group_label_loc` override, but its own offset computation
`ymin - (ymax - ymin) * offset` in place of the fixed `0.2` factor. -/
def groupLabelYC (offset : ℚ) (group_label_loc : Option ℚ) (ylim : ℚ × ℚ) : ℚ :=
  match group_label_loc with
  | none => ylim.1 - (ylim.2 - ylim.1) * offset
  | some v => v

/-- Modelled from the spec: variant C's grouped render loop — identical to
`renderGroups` except for the group-label offset computation. -/
def renderGroupsC (st : BarState) (ylim : ℚ × ℚ) (offset : ℚ) :
    List (String × List String) → ℕ →
    Option (List BarCall × List ℕ × List String × List (ℚ × ℚ × String))
  | [], _ => some ([], [], [], [])
  | (gname, gxs) :: rest, origin => do
      let data ← groupData st.bar_data gxs
      let calls ← renderSingle data st.labels st.colors st.hatches st.bar_spacing origin
        (origin = 0)
      let locs := (List.range gxs.length).map (fun i => origin + i)
      let text := ((origin : ℚ) + (data.length : ℚ) / 2 - 1/2,
                   groupLabelYC offset st.group_label_loc ylim, gname)
      let (calls', locs', labs', texts') ←
        renderGroupsC st ylim offset rest (origin + data.length + st.group_spacing)
      pure (calls ++ calls', locs ++ locs', gxs ++ labs', text :: texts')

/-- Modelled from the spec: variant C's `render`. -/
def renderC (st : BarState) (ylim : ℚ × ℚ) (offset : ℚ) : Option RenderOut :=
  match st.groups with
  | none => do
      let bars ← renderSingle st.bar_data st.labels st.colors st.hatches st.bar_spacing 0 true
      pure { bars := bars,
             xtick_locs := List.range st.bar_data.length,
             xtick_labels := st.bar_data.map Prod.fst,
             xtick_settings := st.xtick_settings,
             group_texts := [],
             hlines_drawn := st.hlines_list,
             legend_settings := st.legend_settings }
  | some gs => do
      let (bars, locs, labs, texts) ← renderGroupsC st ylim offset gs 0
      pure { bars := bars,
             xtick_locs := locs,
             xtick_labels := labs,
             xtick_settings := st.xtick_settings,
             group_texts := texts,
             hlines_drawn := st.hlines_list,
             legend_settings := st.legend_settings }

theorem renderGroupsC_cons {st : BarState} {ylim : ℚ × ℚ} {offset : ℚ} {gname : String}
    {gxs : List String} {rest : List (String × List String)} {origin : ℕ}
    {res : List BarCall × List ℕ × List String × List (ℚ × ℚ × String)}
    (h : renderGroupsC st ylim offset ((gname, gxs) :: rest) origin = some res) :
    ∃ data calls rec4,
      groupData st.bar_data gxs = some data ∧
      renderSingle data st.labels st.colors st.hatches st.bar_spacing origin
        (decide (origin = 0)) = some calls ∧
      renderGroupsC st ylim offset rest (origin + data.length + st.group_spacing) = some rec4 ∧
      res = (calls ++ rec4.1,
             ((List.range gxs.length).map (fun i => origin + i)) ++ rec4.2.1,
             gxs ++ rec4.2.2.1,
             ((origin : ℚ) + (data.length : ℚ) / 2 - 1/2,
              groupLabelYC offset st.group_label_loc ylim, gname) :: rec4.2.2.2) := by
  simp only [renderGroupsC, obind_eq_some, Option.pure_def, Option.some.injEq] at h
  rcases h with ⟨data, hdata, calls, hcalls, ⟨a, b, c, d⟩, hrec, hres⟩
  exact ⟨data, calls, (a, b, c, d), hdata, hcalls, hrec, hres.symm⟩

/-- Variants A and C agree on bars, xticks, and the x positions and names of
the group labels; only the label's y may differ. -/
theorem renderGroupsC_rel (st : BarState) (ylim : ℚ × ℚ) (offset : ℚ) :
    ∀ (gs : List (String × List String)) (origin : ℕ)
      (resA resC : List BarCall × List ℕ × List String × List (ℚ × ℚ × String)),
      renderGroups st ylim gs origin = some resA →
      renderGroupsC st ylim offset gs origin = some resC →
      resC.1 = resA.1 ∧ resC.2.1 = resA.2.1 ∧ resC.2.2.1 = resA.2.2.1 ∧
      resC.2.2.2.map (fun t => (t.1, t.2.2)) = resA.2.2.2.map (fun t => (t.1, t.2.2))
  | [], _, resA, resC, hA, hC => by
      simp only [renderGroups, Option.some.injEq] at hA
      simp only [renderGroupsC, Option.some.injEq] at hC
      rw [← hA, ← hC]
      exact ⟨rfl, rfl, rfl, rfl⟩
  | (gname, gxs) :: rest, origin, resA, resC, hA, hC => by
      obtain ⟨dataA, callsA, recA, hdataA, hcallsA, hrecA, hresA⟩ := renderGroups_cons hA
      obtain ⟨dataC, callsC, recC, hdataC, hcallsC, hrecC, hresC⟩ := renderGroupsC_cons hC
      obtain rfl : dataA = dataC := Option.some.inj (hdataA.symm.trans hdataC)
      obtain rfl : callsA = callsC := Option.some.inj (hcallsA.symm.trans hcallsC)
      obtain ⟨ih1, ih2, ih3, ih4⟩ :=
        renderGroupsC_rel st ylim offset rest (origin + dataA.length + st.group_spacing)
          recA recC hrecA hrecC
      rw [hresA, hresC]
      refine ⟨by rw [ih1], by rw [ih2], by rw [ih3], ?_⟩
      simp only [List.map_cons]
      rw [ih4]

/-- C10: the three `Bar` variants agree on the core layout.  Modelled from
the spec: only `src/bar.py` is in the sources; the other two variants are
reconstructed from the spec's description ("differing in minor features:
hatches, scoped figure-context save/show, group label offset computation" —
the save/show difference is pure I/O and outside the layout).  Part 1: the
hatch-free variant's `_render_single` produces the same bars (positions,
widths, heights, labels, colors) whenever both succeed.  Part 2: the variant
with a different group-label offset renders the same bars, xticks and group
label x-positions/names; only the group labels' y coordinate differs. -/
theorem C10_variants :
    (∀ (data : List (String × List ℚ)) (labels colors hatches : List (Option String))
        (s : ℚ) (origin : ℕ) (u : Bool) (callsA callsB : List BarCall),
      renderSingle data labels colors hatches s origin u = some callsA →
      renderSingleNoHatch data labels colors s origin u = some callsB →
      callsB.map (fun c => (c.loc, c.width, c.heights, c.label, c.color)) =
        callsA.map (fun c => (c.loc, c.width, c.heights, c.label, c.color))) ∧
    (∀ (st : BarState) (ylim : ℚ × ℚ) (offset : ℚ) (gs : List (String × List String))
        (outA outC : RenderOut), st.groups = some gs →
      render st ylim = some outA → renderC st ylim offset = some outC →
      outC.bars = outA.bars ∧ outC.xtick_locs = outA.xtick_locs ∧
      outC.xtick_labels = outA.xtick_labels ∧
      outC.group_texts.map (fun t => (t.1, t.2.2)) =
        outA.group_texts.map (fun t => (t.1, t.2.2))) := by
  constructor
  · intro data labels colors hatches s origin u callsA callsB hA hB
    obtain ⟨p0, hd, h0, homA⟩ := renderSingle_eq_some hA
    obtain ⟨q0, hq, _, homB⟩ := renderSingleNoHatch_eq_some hB
    obtain rfl : p0 = q0 := Option.some.inj (hd.symm.trans hq)
    apply List.ext_getElem?
    intro k
    rw [List.getElem?_map, List.getElem?_map]
    have hkA := omapM_getElem? homA k
    have hkB := omapM_getElem? homB k
    by_cases hk : k < p0.2.length
    · rw [List.getElem?_range hk, Option.some_bind] at hkA hkB
      have hlenA : callsA.length = p0.2.length := by
        rw [omapM_length homA, List.length_range]
      have hlenB : callsB.length = p0.2.length := by
        rw [omapM_length homB, List.length_range]
      rw [List.getElem?_eq_getElem (hlenA ▸ hk)] at hkA
      rw [List.getElem?_eq_getElem (hlenB ▸ hk)] at hkB
      obtain ⟨hts, lab, col, hat, hhts, hlab, hcol, _, hcA⟩ := mkBarCall_fields hkA.symm
      obtain ⟨hts2, lab2, col2, hhts2, hlab2, hcol2, hcB⟩ :=
        mkBarCallNoHatch_fields hkB.symm
      obtain rfl : hts = hts2 := Option.some.inj (hhts.symm.trans hhts2)
      obtain rfl : lab = lab2 := Option.some.inj (hlab.symm.trans hlab2)
      obtain rfl : col = col2 := Option.some.inj (hcol.symm.trans hcol2)
      have hkA' : k < callsA.length := by omega
      have hkB' : k < callsB.length := by omega
      rw [List.getElem?_eq_getElem hkA', List.getElem?_eq_getElem hkB', hcA, hcB]
      simp
    · have hlenA : callsA.length = p0.2.length := by
        rw [omapM_length homA, List.length_range]
      have hlenB : callsB.length = p0.2.length := by
        rw [omapM_length homB, List.length_range]
      rw [List.getElem?_eq_none (by omega), List.getElem?_eq_none (by omega)]
  · intro st ylim offset gs outA outC hg hA hC
    obtain ⟨resA, hresA, houtA⟩ := render_grouped_eq hg hA
    have hCgrouped : ∃ resC, renderGroupsC st ylim offset gs 0 = some resC ∧
        outC = { bars := resC.1, xtick_locs := resC.2.1, xtick_labels := resC.2.2.1,
                 xtick_settings := st.xtick_settings, group_texts := resC.2.2.2,
                 hlines_drawn := st.hlines_list,
                 legend_settings := st.legend_settings } := by
      unfold renderC at hC
      rw [hg] at hC
      simp only [obind_eq_some, Option.pure_def, Option.some.injEq] at hC
      rcases hC with ⟨⟨a, b, c, d⟩, hrec, hout⟩
      exact ⟨(a, b, c, d), hrec, hout.symm⟩
    obtain ⟨resC, hresC, houtC⟩ := hCgrouped
    obtain ⟨h1, h2, h3, h4⟩ := renderGroupsC_rel st ylim offset gs 0 resA resC hresA hresC
    subst houtA
    subst houtC
    exact ⟨h1, h2, h3, h4⟩

theorem C10_variants_w :
    wCalls.map (fun c => (c.loc, c.width, c.heights, c.label, c.color)) =
      wCalls.map (fun c => (c.loc, c.width, c.heights, c.label, c.color)) ∧
    (outG.bars = outG.bars ∧ outG.xtick_locs = outG.xtick_locs ∧
      outG.xtick_labels = outG.xtick_labels ∧
      outG.group_texts.map (fun t => (t.1, t.2.2)) =
        outG.group_texts.map (fun t => (t.1, t.2.2))) :=
  ⟨C10_variants.1 wData [some "A"] [none] [none] (1/4) 0 true wCalls wCalls
    (by norm_num [renderSingle, mkBarCall, omapM, barLoc, wData, wCalls, List.range_succ])
    (by norm_num [renderSingleNoHatch, mkBarCallNoHatch, omapM, barLoc, wData, wCalls,
      List.range_succ]),
   C10_variants.2 stG (0, 1) (2/10) [("g", ["a", "b"])] outG outG rfl
    (by norm_num [render, renderGroups, renderSingle, mkBarCall, groupData, groupLabelY,
      omapM, barLoc, dictGet?, stG, outG, initBar, List.range_succ,
      show (["a", "b"] : List String).eraseDups = ["a", "b"] from by decide,
      show ("a" : String) ≠ "b" from by decide, show ("b" : String) ≠ "a" from by decide])
    (by norm_num [renderC, renderGroupsC, renderSingle, mkBarCall, groupData, groupLabelYC,
      omapM, barLoc, dictGet?, stG, outG, initBar, List.range_succ,
      show (["a", "b"] : List String).eraseDups = ["a", "b"] from by decide,
      show ("a" : String) ≠ "b" from by decide, show ("b" : String) ≠ "a" from by decide])⟩
